import Mathlib

/-!
Shallow embedding of the geo-grid places-search pipeline (`main.ts`) and
proofs of the specified properties.

Numbers that the TypeScript source manipulates (latitudes, longitudes, step
sizes) are modelled by exact rationals `ℚ`; the two `for` loops of
`generateGrid` are modelled by fuel-indexed recursion returning `Option`
(`none` models a loop that has not finished within the given fuel, so a loop
that never finishes returns `none` for every fuel).
-/

set_option autoImplicit false

namespace GeoGrid

/-- Latitude/longitude pair, `type LatLng` of the source. -/
structure LatLng where
  lat : ℚ
  lng : ℚ
deriving DecidableEq, Repr

/-- Constant `STEP_KM = 3` of the source. -/
def STEP_KM : ℚ := 3

/-- Constant `SEARCH_RADIUS = 3000` of the source. -/
def SEARCH_RADIUS : ℚ := 3000

/-- Helper `kmToDeg = (km) => km / 111` of the source. -/
def kmToDeg (km : ℚ) : ℚ := km / 111

/-- Fuel-indexed semantics of the inner loop of `generateGrid`:
`for (let lng = sw.lng; lng <= ne.lng; lng += step) points.push({lat, lng})`.
`none` means the loop did not terminate within `fuel` iterations. -/
def gridRowAux : Nat → ℚ → ℚ → ℚ → ℚ → Option (List LatLng)
  | 0, _, _, _, _ => none
  | fuel + 1, lat, lng, neLng, step =>
    if lng ≤ neLng then
      (gridRowAux fuel lat (lng + step) neLng step).map (fun rest => ⟨lat, lng⟩ :: rest)
    else
      some []

/-- Fuel-indexed semantics of the outer loop of `generateGrid`:
`for (let lat = sw.lat; lat <= ne.lat; lat += step) { ...inner loop... }`. -/
def gridAux : Nat → ℚ → ℚ → ℚ → ℚ → ℚ → Option (List LatLng)
  | 0, _, _, _, _, _ => none
  | fuel + 1, lat, neLat, swLng, neLng, step =>
    if lat ≤ neLat then
      match gridRowAux (fuel + 1) lat swLng neLng step,
            gridAux fuel (lat + step) neLat swLng neLng step with
      | some row, some rest => some (row ++ rest)
      | _, _ => none
    else
      some []

/-- The source's `generateGrid(sw, ne)` with the step size exposed as the
`stepKm` parameter of the §4.2 contract (the source fixes `stepKm = STEP_KM`);
the body converts it with `kmToDeg` exactly as the source does. -/
def generateGrid (fuel : Nat) (sw ne : LatLng) (stepKm : ℚ) : Option (List LatLng) :=
  gridAux fuel sw.lat ne.lat sw.lng ne.lng (kmToDeg stepKm)

/-- Number of loop iterations `lo, lo+step, ...` that satisfy the bound
`≤ hi`, assuming `lo ≤ hi` and `0 < step`. -/
def stepsCount (lo hi step : ℚ) : Nat := (⌊(hi - lo) / step⌋).toNat + 1

/-- Row of grid points the inner loop produces, described directly
(closed form of the raster row of §4.2). -/
def rowPoints (lat lng0 neLng step : ℚ) : List LatLng :=
  if lng0 ≤ neLng then
    (List.range (stepsCount lng0 neLng step)).map (fun j : ℕ => ⟨lat, lng0 + (j : ℚ) * step⟩)
  else
    []

/-- Rows of the raster starting at latitude `lat` (closed form of the outer
loop from an arbitrary loop variable, used for the loop induction). -/
def rasterFrom (lat neLat lng0 neLng step : ℚ) : List LatLng :=
  if lat ≤ neLat then
    (List.range (stepsCount lat neLat step)).flatMap
      (fun i : ℕ => rowPoints (lat + (i : ℚ) * step) lng0 neLng step)
  else
    []

/-- The full row-major raster of §4.2 in closed form: rows at
`sw.lat + i*step`, columns at `sw.lng + j*step`. -/
def rasterGrid (sw ne : LatLng) (step : ℚ) : List LatLng :=
  rasterFrom sw.lat ne.lat sw.lng ne.lng step

/-- The `displayName` sub-object of `interface Place`. -/
structure DisplayName where
  text : String
  languageCode : String
deriving DecidableEq, Repr

/-- The `location` sub-object of `interface Place`. -/
structure Location where
  latitude : ℚ
  longitude : ℚ
deriving DecidableEq, Repr

/-- The source's `interface Place`; optional fields become `Option`. -/
structure Place where
  id : String
  formattedAddress : Option String := none
  location : Option Location := none
  rating : Option ℚ := none
  websiteUri : Option String := none
  userRatingCount : Option Nat := none
  displayName : Option DisplayName := none
deriving DecidableEq, Repr

/-- The source's `interface PlacesSearchResponse` (`places?: Place[]`). -/
structure PlacesSearchResponse where
  places : Option (List Place)
deriving DecidableEq, Repr

/-- Final step of `searchNearby`: `return json.places ?? []`. -/
def extractPlaces (json : PlacesSearchResponse) : List Place :=
  json.places.getD []

/-- The `unique` map of `run`, modelled as an insertion-ordered association
list, which is exactly the observable behaviour of a JS `Map`. -/
abbrev ResultSet : Type := List (String × Place)

/-- JS `Map.prototype.set`: replace in place if the key is present
(keeping its position), otherwise append at the end. -/
def mapSet (m : ResultSet) (k : String) (v : Place) : ResultSet :=
  if m.any (fun kv => kv.1 = k) then
    m.map (fun kv => if kv.1 = k then (k, v) else kv)
  else
    m ++ [(k, v)]

/-- Key list of a `ResultSet`. -/
def keys (m : ResultSet) : List String := m.map Prod.fst

/-- JS `Map.prototype.get`: the value stored under `k`, if any. -/
def lookupId : ResultSet → String → Option Place
  | [], _ => none
  | kv :: rest, k => if kv.1 = k then some kv.2 else lookupId rest k

/-- Inner merge loop of `run`:
`for (const place of places) unique.set(place.id, place)`. -/
def mergeBatch (m : ResultSet) (ps : List Place) : ResultSet :=
  ps.foldl (fun acc p => mapSet acc p.id p) m

/-- Folding the per-point responses, in grid order, into the `unique` map
(the merge part of the main loop of `run`, starting from an empty map). -/
def mergeAll (responses : List (List Place)) : ResultSet :=
  responses.foldl mergeBatch []

/-- A JS number as relevant here: either NaN (what `Number` returns on a
non-numeric option value) or an exact value. -/
inductive JSNum where
  | nan : JSNum
  | num : ℚ → JSNum
deriving DecidableEq, Repr

/-- JS truthiness of a number: `NaN` and `0` are falsy. -/
def jsTruthy : JSNum → Bool
  | JSNum.nan => false
  | JSNum.num q => q ≠ 0

/-- The JS comparison `x > 0` (false for NaN). -/
def jsGtZero : JSNum → Bool
  | JSNum.nan => false
  | JSNum.num q => 0 < q

/-- The integer `Array.prototype.slice` makes of its end argument
(truncation; only reached for positive values here). -/
def jsSliceLen : JSNum → Nat
  | JSNum.nan => 0
  | JSNum.num q => (⌊q⌋).toNat

/-- Grid actually searched by `run`:
`testLimit && testLimit > 0 ? fullGrid.slice(0, testLimit) : fullGrid`. -/
def selectGrid (fullGrid : List LatLng) (testLimit : Option JSNum) : List LatLng :=
  match testLimit with
  | some t => if jsTruthy t && jsGtZero t then fullGrid.take (jsSliceLen t) else fullGrid
  | none => fullGrid

/-- Search-and-merge loop of `run` over the selected grid, with the external
search call abstracted as `search`; a rejected `await searchNearby(...)`
propagates, which `Except.bind` models (the loop body has no try/catch). -/
def runModel (search : LatLng → Except String (List Place))
    (fullGrid : List LatLng) (testLimit : Option JSNum) : Except String ResultSet :=
  (selectGrid fullGrid testLimit).foldlM
    (fun m p => (search p).map (fun places => mergeBatch m places)) []

/-- CLI loop of the source: every argument that is not a `--test=`/`--types=`
option is a city part, and `city = cityParts.join(" ")`. -/
def parseCity (rawArgs : List String) : String :=
  String.intercalate (" ")
    (rawArgs.filter (fun a => !(a.startsWith ("--test=") || a.startsWith ("--types="))))

/-- Startup outcome of the process before the pipeline runs. -/
inductive Startup where
  | fatalMissingKey : Startup
  | fatalUsage : Startup
  | proceed : String → Startup
deriving DecidableEq, Repr

/-- Startup gates of the source, in source order: line 5 throws when
`API_KEY` is absent or empty (`!API_KEY`), and lines 220–225 print usage and
`process.exit(1)` when `city` is empty. -/
def startup (apiKey : Option String) (rawArgs : List String) : Startup :=
  if apiKey.getD "" = "" then
    Startup.fatalMissingKey
  else if parseCity rawArgs = "" then
    Startup.fatalUsage
  else
    Startup.proceed (parseCity rawArgs)

/-- Observable outcome of one process run: exit code, and the exported file
(name and contents) if one was written. -/
structure ProcOutcome where
  exitCode : Nat
  fileWritten : Option (String × String)
deriving DecidableEq, Repr

/-- Whole-process model: startup gates first; only when both pass does the
pipeline (abstracted as `runOutcome`) execute, and only a successful pipeline
writes the file.  Uncaught throws and the final `.catch` both exit 1. -/
def program (apiKey : Option String) (rawArgs : List String)
    (runOutcome : Except String (String × String)) : ProcOutcome :=
  match startup apiKey rawArgs with
  | Startup.fatalMissingKey => ⟨1, none⟩
  | Startup.fatalUsage => ⟨1, none⟩
  | Startup.proceed _ =>
    match runOutcome with
    | Except.ok file => ⟨0, some file⟩
    | Except.error _ => ⟨1, none⟩

/-- A CSV cell value as the source's `escape` receives it:
`value?: string | number`. -/
inductive CsvVal where
  | str : String → CsvVal
  | num : ℚ → CsvVal
  | undef : CsvVal
deriving DecidableEq, Repr

/-- Character-level semantics of `.replace(/"/g, '""')`: every double-quote
character is doubled, all other characters are kept. -/
def escChars : List Char → List Char
  | [] => []
  | c :: cs => if c = '"' then '"' :: '"' :: escChars cs else c :: escChars cs

/-- The string `String(value ?? "")` of the source's `escape`; the rendering
of a JS number to decimal digits is the runtime's, abstracted as `render`. -/
def csvValStr (render : ℚ → String) : CsvVal → String
  | CsvVal.str s => s
  | CsvVal.num q => render q
  | CsvVal.undef => ""

/-- The source's `escape`: `` `"${String(value ?? "").replace(/"/g, '""')}"` ``. -/
def escapeVal (render : ℚ → String) (v : CsvVal) : String :=
  String.mk ('"' :: escChars (csvValStr render v).data ++ ['"'])

/-- The `header` array of `toCsv`. -/
def csvHeader : List String :=
  ["id", "name", "rating", "userRatingCount", "websiteUri", "formattedAddress",
   "latitude", "longitude"]

/-- Lift an optional string field to the `escape` argument (an absent field
arrives as `undefined`). -/
def optStr : Option String → CsvVal
  | none => CsvVal.undef
  | some s => CsvVal.str s

/-- Lift an optional numeric field to the `escape` argument. -/
def optNum : Option ℚ → CsvVal
  | none => CsvVal.undef
  | some q => CsvVal.num q

/-- One data row of `toCsv`: the eight escaped fields joined with commas,
in source order. -/
def csvRow (render : ℚ → String) (p : Place) : String :=
  String.intercalate (",")
    [escapeVal render (CsvVal.str p.id),
     escapeVal render (optStr (p.displayName.map DisplayName.text)),
     escapeVal render (optNum p.rating),
     escapeVal render (optNum (p.userRatingCount.map (fun n => (n : ℚ)))),
     escapeVal render (optStr p.websiteUri),
     escapeVal render (optStr p.formattedAddress),
     escapeVal render (optNum (p.location.map Location.latitude)),
     escapeVal render (optNum (p.location.map Location.longitude))]

/-- The source's `toCsv`: `[header.join(","), ...rows].join("\n")`. -/
def toCsv (render : ℚ → String) (places : List Place) : String :=
  String.intercalate ("\n")
    (String.intercalate (",") csvHeader :: places.map (csvRow render))

/-- Modelled from the spec (§6): a field is "rendered as a quoted string with
embedded quotes doubled"; stated independently of the source's
`String.replace`-based code, for comparison with `escapeVal`. -/
def specQuotedField (s : String) : String :=
  String.mk ('"' :: (s.data.flatMap (fun c => if c = '"' then ['"', '"'] else [c])) ++ ['"'])

/-- Concrete record used in witnesses: `{id:"A", rating:4}`. -/
def placeA4 : Place := { id := "A", rating := some 4 }

/-- Concrete record used in witnesses: `{id:"A", rating:5}`. -/
def placeA5 : Place := { id := "A", rating := some 5 }

/-- First grid point of the concrete failing run. -/
def pointEx1 : LatLng := ⟨0, 0⟩

/-- Second grid point of the concrete failing run. -/
def pointEx2 : LatLng := ⟨1, 0⟩

/-- Concrete search collaborator: the first point returns one record, the
second point's call fails (network error). -/
def searchEx : LatLng → Except String (List Place) := fun p =>
  if p = pointEx1 then Except.ok [placeA4] else Except.error "network error"

/-! Theorems.  First the grid generator. -/

theorem stepsCount_pos (lo hi step : ℚ) : 0 < stepsCount lo hi step := by
  unfold stepsCount
  omega

theorem stepsCount_eq_one {lo hi step : ℚ} (hstep : 0 < step) (h1 : lo ≤ hi)
    (h2 : hi < lo + step) : stepsCount lo hi step = 1 := by
  unfold stepsCount
  have hfl : ⌊(hi - lo) / step⌋ = 0 := by
    rw [Int.floor_eq_zero_iff, Set.mem_Ico]
    constructor
    · exact div_nonneg (by linarith) hstep.le
    · rw [div_lt_one hstep]
      linarith
  rw [hfl]
  rfl

theorem stepsCount_succ {lo hi step : ℚ} (hstep : 0 < step) (h : lo + step ≤ hi) :
    stepsCount lo hi step = stepsCount (lo + step) hi step + 1 := by
  unfold stepsCount
  have hrw : (hi - lo) / step = (hi - (lo + step)) / step + 1 := by
    field_simp
    ring
  have hnn : 0 ≤ ⌊(hi - (lo + step)) / step⌋ :=
    Int.floor_nonneg.mpr (div_nonneg (by linarith) hstep.le)
  rw [hrw, Int.floor_add_one]
  omega

theorem stepsCount_cover {lo hi step : ℚ} (hstep : 0 < step) (h1 : lo ≤ hi) :
    lo + ((stepsCount lo hi step - 1 : ℕ) : ℚ) * step ≤ hi ∧
      hi < lo + ((stepsCount lo hi step : ℕ) : ℚ) * step := by
  unfold stepsCount
  have hx0 : 0 ≤ (hi - lo) / step := div_nonneg (by linarith) hstep.le
  have hfl : 0 ≤ ⌊(hi - lo) / step⌋ := Int.floor_nonneg.mpr hx0
  have hcast : ((⌊(hi - lo) / step⌋.toNat : ℕ) : ℚ) = ((⌊(hi - lo) / step⌋ : ℤ) : ℚ) := by
    exact_mod_cast Int.toNat_of_nonneg hfl
  have hmul : ((hi - lo) / step) * step = hi - lo := div_mul_cancel₀ _ (ne_of_gt hstep)
  constructor
  · have h2 : (⌊(hi - lo) / step⌋ : ℚ) ≤ (hi - lo) / step := Int.floor_le _
    have h3 : (⌊(hi - lo) / step⌋ : ℚ) * step ≤ ((hi - lo) / step) * step :=
      mul_le_mul_of_nonneg_right h2 hstep.le
    have h4 : ((⌊(hi - lo) / step⌋.toNat + 1 - 1 : ℕ) : ℚ) = ((⌊(hi - lo) / step⌋ : ℤ) : ℚ) := by
      rw [Nat.add_sub_cancel]
      exact hcast
    rw [h4]
    rw [hmul] at h3
    linarith
  · have h2 : (hi - lo) / step < (⌊(hi - lo) / step⌋ : ℚ) + 1 := Int.lt_floor_add_one _
    have h3 : ((hi - lo) / step) * step < ((⌊(hi - lo) / step⌋ : ℚ) + 1) * step :=
      mul_lt_mul_of_pos_right h2 hstep
    have h4 : ((⌊(hi - lo) / step⌋.toNat + 1 : ℕ) : ℚ) = (⌊(hi - lo) / step⌋ : ℚ) + 1 := by
      push_cast [hcast]
      ring
    rw [h4]
    rw [hmul] at h3
    linarith

theorem rowPoints_cons {lat lng neLng step : ℚ} (hstep : 0 < step) (hlng : lng ≤ neLng) :
    rowPoints lat lng neLng step = ⟨lat, lng⟩ :: rowPoints lat (lng + step) neLng step := by
  by_cases h2 : lng + step ≤ neLng
  · unfold rowPoints
    rw [if_pos hlng, if_pos h2, stepsCount_succ hstep h2, List.range_succ_eq_map,
      List.map_cons, List.map_map]
    congr 1
    · simp
    · apply List.map_congr_left
      intro j _
      simp only [Function.comp_apply, LatLng.mk.injEq]
      refine ⟨by trivial, ?_⟩
      push_cast
      ring
  · have h3 : neLng < lng + step := not_le.mp h2
    unfold rowPoints
    rw [if_pos hlng, if_neg h2, stepsCount_eq_one hstep hlng h3,
      show List.range 1 = [0] from by decide]
    simp

theorem gridRowAux_eq {fuel : Nat} {lat lng neLng step : ℚ} (hstep : 0 < step)
    (hfuel : (if lng ≤ neLng then stepsCount lng neLng step else 0) < fuel) :
    gridRowAux fuel lat lng neLng step = some (rowPoints lat lng neLng step) := by
  induction fuel generalizing lng with
  | zero => omega
  | succ n ih =>
    by_cases hlng : lng ≤ neLng
    · rw [if_pos hlng] at hfuel
      simp only [gridRowAux]
      rw [if_pos hlng]
      have hrec : (if lng + step ≤ neLng then stepsCount (lng + step) neLng step else 0) < n := by
        by_cases h2 : lng + step ≤ neLng
        · rw [if_pos h2]
          have := stepsCount_succ hstep h2
          omega
        · rw [if_neg h2]
          have := stepsCount_pos lng neLng step
          omega
      rw [ih hrec]
      rw [rowPoints_cons hstep hlng]
      rfl
    · rw [if_neg hlng] at hfuel
      simp only [gridRowAux]
      rw [if_neg hlng]
      unfold rowPoints
      rw [if_neg hlng]

theorem rasterFrom_cons {lat neLat lng0 neLng step : ℚ} (hstep : 0 < step)
    (hlat : lat ≤ neLat) :
    rasterFrom lat neLat lng0 neLng step =
      rowPoints lat lng0 neLng step ++ rasterFrom (lat + step) neLat lng0 neLng step := by
  by_cases h2 : lat + step ≤ neLat
  · unfold rasterFrom
    rw [if_pos hlat, if_pos h2, stepsCount_succ hstep h2, List.range_succ_eq_map,
      List.flatMap_cons, List.flatMap_map]
    congr 1
    · show rowPoints (lat + ((0 : ℕ) : ℚ) * step) lng0 neLng step = rowPoints lat lng0 neLng step
      norm_num
    · apply List.flatMap_congr
      intro j _
      show rowPoints (lat + ((Nat.succ j : ℕ) : ℚ) * step) lng0 neLng step
          = rowPoints (lat + step + (j : ℚ) * step) lng0 neLng step
      congr 1
      push_cast
      ring
  · have h3 : neLat < lat + step := not_le.mp h2
    unfold rasterFrom
    rw [if_pos hlat, if_neg h2, stepsCount_eq_one hstep hlat h3,
      show List.range 1 = [0] from by decide]
    simp

theorem gridAux_eq {fuel : Nat} {lat neLat lng0 neLng step : ℚ} (hstep : 0 < step)
    (hfuel : (if lat ≤ neLat then stepsCount lat neLat step else 0)
      + (if lng0 ≤ neLng then stepsCount lng0 neLng step else 0) < fuel) :
    gridAux fuel lat neLat lng0 neLng step = some (rasterFrom lat neLat lng0 neLng step) := by
  induction fuel generalizing lat with
  | zero => omega
  | succ n ih =>
    by_cases hlat : lat ≤ neLat
    · rw [if_pos hlat] at hfuel
      have hrow : gridRowAux (n + 1) lat lng0 neLng step = some (rowPoints lat lng0 neLng step) := by
        apply gridRowAux_eq hstep
        have := stepsCount_pos lat neLat step
        omega
      have hrec : gridAux n (lat + step) neLat lng0 neLng step
          = some (rasterFrom (lat + step) neLat lng0 neLng step) := by
        apply ih
        by_cases h2 : lat + step ≤ neLat
        · rw [if_pos h2]
          have := stepsCount_succ hstep h2
          omega
        · rw [if_neg h2]
          have := stepsCount_pos lat neLat step
          omega
      simp only [gridAux]
      rw [if_pos hlat, hrow, hrec]
      rw [rasterFrom_cons hstep hlat]
    · simp only [gridAux]
      rw [if_neg hlat]
      unfold rasterFrom
      rw [if_neg hlat]

/-- C1: for every bounding box (`sw ≤ ne` componentwise, the §3 invariant) and
positive step size, `generateGrid` (with enough fuel for its two loops)
returns exactly the non-empty row-major raster of §4.2: first point the
southwest corner, rows at `sw.lat + i*step` while within the box, columns at
`sw.lng + j*step`, and the last row/column covers the northeast corner within
one step. -/
theorem generateGrid_raster (fuel : Nat) (sw ne : LatLng) (stepKm : ℚ)
    (hstep : 0 < stepKm) (hlat : sw.lat ≤ ne.lat) (hlng : sw.lng ≤ ne.lng)
    (hfuel : stepsCount sw.lat ne.lat (kmToDeg stepKm)
      + stepsCount sw.lng ne.lng (kmToDeg stepKm) < fuel) :
    generateGrid fuel sw ne stepKm = some (rasterGrid sw ne (kmToDeg stepKm)) ∧
    rasterGrid sw ne (kmToDeg stepKm) ≠ [] ∧
    (rasterGrid sw ne (kmToDeg stepKm)).head? = some sw ∧
    sw.lat + ((stepsCount sw.lat ne.lat (kmToDeg stepKm) - 1 : ℕ) : ℚ) * kmToDeg stepKm
      ≤ ne.lat ∧
    ne.lat < sw.lat + ((stepsCount sw.lat ne.lat (kmToDeg stepKm) : ℕ) : ℚ) * kmToDeg stepKm ∧
    sw.lng + ((stepsCount sw.lng ne.lng (kmToDeg stepKm) - 1 : ℕ) : ℚ) * kmToDeg stepKm
      ≤ ne.lng ∧
    ne.lng < sw.lng + ((stepsCount sw.lng ne.lng (kmToDeg stepKm) : ℕ) : ℚ) * kmToDeg stepKm := by
  have hs : 0 < kmToDeg stepKm := by
    unfold kmToDeg
    positivity
  have hcons : rasterGrid sw ne (kmToDeg stepKm)
      = ⟨sw.lat, sw.lng⟩ ::
        (rowPoints sw.lat (sw.lng + kmToDeg stepKm) ne.lng (kmToDeg stepKm)
          ++ rasterFrom (sw.lat + kmToDeg stepKm) ne.lat sw.lng ne.lng (kmToDeg stepKm)) := by
    unfold rasterGrid
    rw [rasterFrom_cons hs hlat, rowPoints_cons hs hlng]
    rfl
  refine ⟨?_, ?_, ?_, (stepsCount_cover hs hlat).1, (stepsCount_cover hs hlat).2,
    (stepsCount_cover hs hlng).1, (stepsCount_cover hs hlng).2⟩
  · unfold generateGrid rasterGrid
    apply gridAux_eq hs
    rw [if_pos hlat, if_pos hlng]
    exact hfuel
  · rw [hcons]
    exact List.cons_ne_nil _ _
  · rw [hcons]
    rfl

theorem generateGrid_raster_witness :
    (0 : ℚ) < 3 ∧ (⟨0, 0⟩ : LatLng).lat ≤ (⟨1/20, 1/20⟩ : LatLng).lat ∧
    (⟨0, 0⟩ : LatLng).lng ≤ (⟨1/20, 1/20⟩ : LatLng).lng ∧
    stepsCount (⟨0, 0⟩ : LatLng).lat (⟨1/20, 1/20⟩ : LatLng).lat (kmToDeg 3)
      + stepsCount (⟨0, 0⟩ : LatLng).lng (⟨1/20, 1/20⟩ : LatLng).lng (kmToDeg 3) < 10 ∧
    (generateGrid 10 ⟨0, 0⟩ ⟨1/20, 1/20⟩ 3 = some (rasterGrid ⟨0, 0⟩ ⟨1/20, 1/20⟩ (kmToDeg 3)) ∧
      rasterGrid ⟨0, 0⟩ ⟨1/20, 1/20⟩ (kmToDeg 3) ≠ [] ∧
      (rasterGrid ⟨0, 0⟩ ⟨1/20, 1/20⟩ (kmToDeg 3)).head? = some ⟨0, 0⟩ ∧
      (⟨0, 0⟩ : LatLng).lat +
          ((stepsCount (⟨0, 0⟩ : LatLng).lat (⟨1/20, 1/20⟩ : LatLng).lat (kmToDeg 3) - 1 : ℕ) : ℚ)
            * kmToDeg 3 ≤ (⟨1/20, 1/20⟩ : LatLng).lat ∧
      (⟨1/20, 1/20⟩ : LatLng).lat < (⟨0, 0⟩ : LatLng).lat +
          ((stepsCount (⟨0, 0⟩ : LatLng).lat (⟨1/20, 1/20⟩ : LatLng).lat (kmToDeg 3) : ℕ) : ℚ)
            * kmToDeg 3 ∧
      (⟨0, 0⟩ : LatLng).lng +
          ((stepsCount (⟨0, 0⟩ : LatLng).lng (⟨1/20, 1/20⟩ : LatLng).lng (kmToDeg 3) - 1 : ℕ) : ℚ)
            * kmToDeg 3 ≤ (⟨1/20, 1/20⟩ : LatLng).lng ∧
      (⟨1/20, 1/20⟩ : LatLng).lng < (⟨0, 0⟩ : LatLng).lng +
          ((stepsCount (⟨0, 0⟩ : LatLng).lng (⟨1/20, 1/20⟩ : LatLng).lng (kmToDeg 3) : ℕ) : ℚ)
            * kmToDeg 3) :=
  ⟨by norm_num, by norm_num, by norm_num,
    by norm_num [stepsCount, kmToDeg, Int.floor_eq_iff],
    generateGrid_raster 10 ⟨0, 0⟩ ⟨1/20, 1/20⟩ 3 (by norm_num) (by norm_num) (by norm_num)
      (by norm_num [stepsCount, kmToDeg, Int.floor_eq_iff])⟩

theorem gridRowAux_none_of_nonpos (fuel : Nat) (lat lng neLng step : ℚ)
    (hstep : step ≤ 0) (hlng : lng ≤ neLng) :
    gridRowAux fuel lat lng neLng step = none := by
  induction fuel generalizing lng with
  | zero => rfl
  | succ n ih =>
    simp only [gridRowAux]
    rw [if_pos hlng, ih (lng + step) (by linarith)]
    rfl

/-- C3: the code has no zero/negative-step guard; with a non-positive step
and a non-degenerate box the loops of `generateGrid` never terminate (in the
fuel semantics: `none` for every fuel), rather than failing fast as the spec
requires. -/
theorem generateGrid_nonpos_step_diverges (fuel : Nat) (sw ne : LatLng) (stepKm : ℚ)
    (hstep : stepKm ≤ 0) (hlat : sw.lat ≤ ne.lat) (hlng : sw.lng ≤ ne.lng) :
    generateGrid fuel sw ne stepKm = none := by
  have hs : kmToDeg stepKm ≤ 0 := by
    unfold kmToDeg
    apply div_nonpos_of_nonpos_of_nonneg hstep
    norm_num
  unfold generateGrid
  cases fuel with
  | zero => rfl
  | succ n =>
    simp only [gridAux]
    rw [if_pos hlat, gridRowAux_none_of_nonpos _ _ _ _ _ hs hlng]

theorem generateGrid_nonpos_step_diverges_witness :
    (0 : ℚ) ≤ 0 ∧ (⟨0, 0⟩ : LatLng).lat ≤ (⟨0, 0⟩ : LatLng).lat ∧
    (⟨0, 0⟩ : LatLng).lng ≤ (⟨0, 0⟩ : LatLng).lng ∧
    generateGrid 1000 ⟨0, 0⟩ ⟨0, 0⟩ 0 = none :=
  ⟨le_refl 0, le_refl _, le_refl _,
    generateGrid_nonpos_step_diverges 1000 ⟨0, 0⟩ ⟨0, 0⟩ 0 (le_refl 0) (le_refl _) (le_refl _)⟩

/-! Association-list lemmas about the JS-Map model. -/

theorem any_key_iff (m : ResultSet) (k : String) :
    (m.any (fun kv => kv.1 = k) = true) ↔ k ∈ keys m := by
  rw [List.any_eq_true]
  simp only [keys, List.mem_map, decide_eq_true_eq]

theorem lookupId_eq_none (m : ResultSet) (k : String) (h : k ∉ keys m) :
    lookupId m k = none := by
  induction m with
  | nil => rfl
  | cons kv rest ih =>
    simp only [keys, List.map_cons, List.mem_cons, not_or] at h
    simp only [lookupId]
    rw [if_neg (fun he => h.1 he.symm)]
    exact ih (by simpa [keys] using h.2)

theorem lookupId_map_replace_self {m : ResultSet} {k : String} {v : Place} (h : k ∈ keys m) :
    lookupId (m.map (fun kv => if kv.1 = k then (k, v) else kv)) k = some v := by
  induction m with
  | nil => simp [keys] at h
  | cons kv rest ih =>
    by_cases hk : kv.1 = k
    · simp only [List.map_cons, if_pos hk]
      simp [lookupId]
    · have h2 : k ∈ keys rest := by
        simp only [keys, List.map_cons, List.mem_cons] at h
        rcases h with h | h
        · exact absurd h.symm hk
        · exact h
      simp only [List.map_cons, if_neg hk, lookupId]
      exact ih h2

theorem lookupId_map_replace_ne {m : ResultSet} {k k' : String} {v : Place} (h : k' ≠ k) :
    lookupId (m.map (fun kv => if kv.1 = k then (k, v) else kv)) k' = lookupId m k' := by
  induction m with
  | nil => rfl
  | cons kv rest ih =>
    by_cases hk : kv.1 = k
    · have hne : kv.1 ≠ k' := by
        rw [hk]
        exact fun he => h he.symm
      simp only [List.map_cons, if_pos hk, lookupId]
      rw [if_neg (fun he : k = k' => h he.symm), if_neg hne]
      exact ih
    · simp only [List.map_cons, if_neg hk, lookupId]
      by_cases hkv : kv.1 = k'
      · rw [if_pos hkv, if_pos hkv]
      · rw [if_neg hkv, if_neg hkv]
        exact ih

theorem lookupId_append_self {m : ResultSet} {k : String} {v : Place} (h : k ∉ keys m) :
    lookupId (m ++ [(k, v)]) k = some v := by
  induction m with
  | nil => simp [lookupId]
  | cons kv rest ih =>
    simp only [keys, List.map_cons, List.mem_cons, not_or] at h
    simp only [List.cons_append, lookupId]
    rw [if_neg (fun he => h.1 he.symm)]
    exact ih (by simpa [keys] using h.2)

theorem lookupId_append_ne {m : ResultSet} {k k' : String} {v : Place} (h : k' ≠ k) :
    lookupId (m ++ [(k, v)]) k' = lookupId m k' := by
  induction m with
  | nil =>
    simp only [List.nil_append, lookupId]
    rw [if_neg (fun he : k = k' => h he.symm)]
  | cons kv rest ih =>
    simp only [List.cons_append, lookupId]
    by_cases hkv : kv.1 = k'
    · rw [if_pos hkv, if_pos hkv]
    · rw [if_neg hkv, if_neg hkv]
      exact ih

theorem lookupId_mapSet (m : ResultSet) (k k' : String) (v : Place) :
    lookupId (mapSet m k v) k' = if k' = k then some v else lookupId m k' := by
  unfold mapSet
  by_cases h : k ∈ keys m
  · rw [if_pos ((any_key_iff m k).mpr h)]
    by_cases hk : k' = k
    · subst hk
      rw [if_pos rfl]
      exact lookupId_map_replace_self h
    · rw [if_neg hk]
      exact lookupId_map_replace_ne hk
  · rw [if_neg (fun hc => h ((any_key_iff m k).mp hc))]
    by_cases hk : k' = k
    · subst hk
      rw [if_pos rfl]
      exact lookupId_append_self h
    · rw [if_neg hk]
      exact lookupId_append_ne hk

theorem keys_mapSet_of_mem {m : ResultSet} {k : String} (v : Place) (h : k ∈ keys m) :
    keys (mapSet m k v) = keys m := by
  unfold mapSet
  rw [if_pos ((any_key_iff m k).mpr h)]
  unfold keys
  rw [List.map_map]
  apply List.map_congr_left
  intro kv _
  simp only [Function.comp_apply]
  by_cases hk : kv.1 = k
  · rw [if_pos hk]
    exact hk.symm
  · rw [if_neg hk]

theorem keys_mapSet_of_not_mem {m : ResultSet} {k : String} (v : Place) (h : k ∉ keys m) :
    keys (mapSet m k v) = keys m ++ [k] := by
  unfold mapSet
  rw [if_neg (fun hc => h ((any_key_iff m k).mp hc))]
  unfold keys
  rw [List.map_append]
  rfl

theorem mem_keys_mapSet {m : ResultSet} {k k' : String} (v : Place) :
    k' ∈ keys (mapSet m k v) ↔ k' ∈ keys m ∨ k' = k := by
  by_cases h : k ∈ keys m
  · rw [keys_mapSet_of_mem v h]
    constructor
    · exact Or.inl
    · rintro (h2 | h2)
      · exact h2
      · rw [h2]
        exact h
  · rw [keys_mapSet_of_not_mem v h, List.mem_append, List.mem_singleton]

theorem nodup_keys_mapSet {m : ResultSet} {k : String} (v : Place) (h : (keys m).Nodup) :
    (keys (mapSet m k v)).Nodup := by
  by_cases hm : k ∈ keys m
  · rw [keys_mapSet_of_mem v hm]
    exact h
  · rw [keys_mapSet_of_not_mem v hm]
    rw [(List.perm_append_singleton k (keys m)).nodup_iff]
    exact List.nodup_cons.mpr ⟨hm, h⟩

theorem getLast?_cons_or {α : Type} (a : α) (l : List α) :
    (a :: l).getLast? = (l.getLast? <|> some a) := by
  induction l generalizing a with
  | nil => simp
  | cons b t ih =>
    rw [List.getLast?_cons_cons, ih b]
    cases ht : t.getLast? <;> simp

theorem getLast?_append_or {α : Type} (l₁ l₂ : List α) :
    (l₁ ++ l₂).getLast? = (l₂.getLast? <|> l₁.getLast?) := by
  cases l₂ with
  | nil => simp
  | cons b t =>
    rw [List.getLast?_append_of_ne_nil l₁ (List.cons_ne_nil b t)]
    rw [getLast?_cons_or]
    cases ht : t.getLast? <;> simp

theorem getLast?_or_of_ne_nil {α : Type} {l : List α} (h : l ≠ []) (x : Option α) :
    (l.getLast? <|> x) = l.getLast? := by
  cases l with
  | nil => exact absurd rfl h
  | cons a t =>
    rw [getLast?_cons_or]
    cases ht : t.getLast? <;> simp

/-! Lemmas about the merge loop. -/

theorem lookupId_mergeBatch (m : ResultSet) (ps : List Place) (k : String) :
    lookupId (mergeBatch m ps)
      k = ((ps.filter (fun p => p.id = k)).getLast? <|> lookupId m k) := by
  induction ps generalizing m with
  | nil => simp [mergeBatch]
  | cons p rest ih =>
    show lookupId (mergeBatch (mapSet m p.id p) rest) k = _
    rw [ih, lookupId_mapSet]
    by_cases hp : p.id = k
    · rw [List.filter_cons_of_pos (by simp [hp]), if_pos hp.symm, getLast?_cons_or]
      cases hL : (rest.filter (fun p => decide (p.id = k))).getLast? <;> simp [hL]
    · rw [List.filter_cons_of_neg (by simp [hp]), if_neg (fun he => hp he.symm)]

theorem mem_keys_mergeBatch_of_mem {m : ResultSet} {k : String} (ps : List Place)
    (h : k ∈ keys m) : k ∈ keys (mergeBatch m ps) := by
  induction ps generalizing m with
  | nil => exact h
  | cons p rest ih =>
    show k ∈ keys (mergeBatch (mapSet m p.id p) rest)
    exact ih ((mem_keys_mapSet p).mpr (Or.inl h))

theorem id_mem_keys_mergeBatch {m : ResultSet} {p : Place} {ps : List Place} (h : p ∈ ps) :
    p.id ∈ keys (mergeBatch m ps) := by
  induction ps generalizing m with
  | nil => cases h
  | cons q rest ih =>
    rcases List.mem_cons.mp h with h1 | h1
    · subst h1
      show p.id ∈ keys (mergeBatch (mapSet m p.id p) rest)
      exact mem_keys_mergeBatch_of_mem rest ((mem_keys_mapSet p).mpr (Or.inr rfl))
    · show p.id ∈ keys (mergeBatch (mapSet m q.id q) rest)
      exact ih h1

theorem keys_mergeBatch_of_subset {m : ResultSet} {ps : List Place}
    (h : ∀ p ∈ ps, p.id ∈ keys m) : keys (mergeBatch m ps) = keys m := by
  induction ps generalizing m with
  | nil => rfl
  | cons p rest ih =>
    show keys (mergeBatch (mapSet m p.id p) rest) = keys m
    have h1 : p.id ∈ keys m := h p (List.mem_cons_self p rest)
    have h2 : ∀ q ∈ rest, q.id ∈ keys (mapSet m p.id p) := by
      intro q hq
      rw [keys_mapSet_of_mem p h1]
      exact h q (List.mem_cons_of_mem p hq)
    rw [ih h2, keys_mapSet_of_mem p h1]

theorem nodup_keys_mergeBatch {m : ResultSet} (ps : List Place) (h : (keys m).Nodup) :
    (keys (mergeBatch m ps)).Nodup := by
  induction ps generalizing m with
  | nil => exact h
  | cons p rest ih =>
    show (keys (mergeBatch (mapSet m p.id p) rest)).Nodup
    exact ih (nodup_keys_mapSet p h)

theorem mem_keys_mergeBatch_iff {m : ResultSet} (ps : List Place) (k : String) :
    k ∈ keys (mergeBatch m ps) ↔ k ∈ keys m ∨ ∃ p ∈ ps, p.id = k := by
  induction ps generalizing m with
  | nil => simp [mergeBatch]
  | cons p rest ih =>
    show k ∈ keys (mergeBatch (mapSet m p.id p) rest) ↔ _
    rw [ih, mem_keys_mapSet p]
    constructor
    · rintro ((h | h) | ⟨q, hq, hqk⟩)
      · exact Or.inl h
      · exact Or.inr ⟨p, List.mem_cons_self p rest, h.symm⟩
      · exact Or.inr ⟨q, List.mem_cons_of_mem p hq, hqk⟩
    · rintro (h | ⟨q, hq, hqk⟩)
      · exact Or.inl (Or.inl h)
      · rcases List.mem_cons.mp hq with h1 | h1
        · subst h1
          exact Or.inl (Or.inr hqk.symm)
        · exact Or.inr ⟨q, h1, hqk⟩

theorem lookupId_foldl_mergeBatch (rs : List (List Place)) (m : ResultSet) (k : String) :
    lookupId (rs.foldl mergeBatch m) k
      = ((rs.flatten.filter (fun p => p.id = k)).getLast? <|> lookupId m k) := by
  induction rs generalizing m with
  | nil => simp
  | cons r rest ih =>
    show lookupId (rest.foldl mergeBatch (mergeBatch m r)) k = _
    rw [ih, lookupId_mergeBatch, List.flatten_cons, List.filter_append, getLast?_append_or]
    cases hR : (rest.flatten.filter (fun p => decide (p.id = k))).getLast? <;> simp [hR]

theorem mem_keys_foldl_mergeBatch (rs : List (List Place)) (m : ResultSet) (k : String) :
    k ∈ keys (rs.foldl mergeBatch m) ↔ k ∈ keys m ∨ ∃ p ∈ rs.flatten, p.id = k := by
  induction rs generalizing m with
  | nil => simp
  | cons r rest ih =>
    show k ∈ keys (rest.foldl mergeBatch (mergeBatch m r)) ↔ _
    rw [ih, mem_keys_mergeBatch_iff, List.flatten_cons]
    constructor
    · rintro ((h | ⟨q, hq, hqk⟩) | ⟨q, hq, hqk⟩)
      · exact Or.inl h
      · exact Or.inr ⟨q, List.mem_append.mpr (Or.inl hq), hqk⟩
      · exact Or.inr ⟨q, List.mem_append.mpr (Or.inr hq), hqk⟩
    · rintro (h | ⟨q, hq, hqk⟩)
      · exact Or.inl (Or.inl h)
      · rcases List.mem_append.mp hq with h1 | h1
        · exact Or.inl (Or.inr ⟨q, h1, hqk⟩)
        · exact Or.inr ⟨q, h1, hqk⟩

theorem nodup_keys_foldl_mergeBatch (rs : List (List Place)) (m : ResultSet)
    (h : (keys m).Nodup) : (keys (rs.foldl mergeBatch m)).Nodup := by
  induction rs generalizing m with
  | nil => exact h
  | cons r rest ih =>
    show (keys (rest.foldl mergeBatch (mergeBatch m r))).Nodup
    exact ih _ (nodup_keys_mergeBatch r h)

/-- C2: after merging the per-point responses in grid order, the `unique` map
has exactly one entry per distinct id seen across the responses, the entry
for an id is the last record with that id in the concatenated responses, and
in particular it comes from the last grid point whose response contained the
id (last-write-wins). -/
theorem mergeAll_lastWriteWins (rs : List (List Place)) :
    (keys (mergeAll rs)).Nodup ∧
    (∀ k, k ∈ keys (mergeAll rs) ↔ ∃ p ∈ rs.flatten, p.id = k) ∧
    (∀ k, lookupId (mergeAll rs) k = (rs.flatten.filter (fun p => p.id = k)).getLast?) ∧
    (∀ (rs₁ : List (List Place)) (r : List Place) (rs₂ : List (List Place)) (k : String),
      rs = rs₁ ++ r :: rs₂ → (∃ p ∈ r, p.id = k) → (∀ p ∈ rs₂.flatten, p.id ≠ k) →
      lookupId (mergeAll rs) k = (r.filter (fun p => p.id = k)).getLast?) := by
  have hlook : ∀ k, lookupId (mergeAll rs) k
      = (rs.flatten.filter (fun p => p.id = k)).getLast? := by
    intro k
    unfold mergeAll
    rw [lookupId_foldl_mergeBatch]
    have hnil : lookupId ([] : ResultSet) k = none := rfl
    rw [hnil]
    cases hR : (rs.flatten.filter (fun p => decide (p.id = k))).getLast? <;> simp [hR]
  refine ⟨?_, ?_, hlook, ?_⟩
  · exact nodup_keys_foldl_mergeBatch rs [] List.nodup_nil
  · intro k
    unfold mergeAll
    rw [mem_keys_foldl_mergeBatch]
    simp [keys]
  · intro rs₁ r rs₂ k hsplit hex hafter
    subst hsplit
    rw [hlook k, List.flatten_append, List.flatten_cons, List.filter_append,
      List.filter_append, getLast?_append_or, getLast?_append_or]
    have hnil : rs₂.flatten.filter (fun p => p.id = k) = [] := by
      rw [List.filter_eq_nil_iff]
      intro p hp
      simp [hafter p hp]
    rw [hnil]
    rcases hex with ⟨p, hp, hpk⟩
    have hrne : r.filter (fun p => p.id = k) ≠ [] :=
      List.ne_nil_of_mem (List.mem_filter.mpr ⟨hp, by simp [hpk]⟩)
    rw [show ((([] : List Place).getLast? <|> (r.filter (fun p => p.id = k)).getLast?))
        = (r.filter (fun p => p.id = k)).getLast? from by cases hR : (r.filter (fun p => decide (p.id = k))).getLast? <;> simp [hR]]
    exact getLast?_or_of_ne_nil hrne _

theorem mergeAll_lastWriteWins_witness :
    lookupId (mergeAll [[placeA4], [placeA5]]) "A"
      = (([placeA5]).filter (fun p => p.id = "A")).getLast? :=
  (mergeAll_lastWriteWins [[placeA4], [placeA5]]).2.2.2 [[placeA4]] [placeA5] [] "A" rfl
    ⟨placeA5, by simp, by simp [placeA5]⟩ (by simp)

theorem resultSet_ext (m₁ : ResultSet) : ∀ (m₂ : ResultSet), keys m₁ = keys m₂ →
    (keys m₁).Nodup → (∀ k, lookupId m₁ k = lookupId m₂ k) → m₁ = m₂ := by
  induction m₁ with
  | nil =>
    intro m₂ hk _ _
    cases m₂ with
    | nil => rfl
    | cons kv t => simp [keys] at hk
  | cons kv t ih =>
    intro m₂ hk hnd hl
    cases m₂ with
    | nil => simp [keys] at hk
    | cons kv' t' =>
      simp only [keys, List.map_cons, List.cons.injEq] at hk
      have hfst : kv.1 = kv'.1 := hk.1
      have hnd2 : (kv.1 :: keys t).Nodup := hnd
      have hndc := List.nodup_cons.mp hnd2
      have hknotin : kv.1 ∉ keys t := hndc.1
      have hknotin2 : kv.1 ∉ keys t' := by
        show kv.1 ∉ List.map Prod.fst t'
        rw [← hk.2]
        exact hknotin
      have hval : kv.2 = kv'.2 := by
        have hh := hl kv.1
        rw [show lookupId (kv :: t) kv.1 = some kv.2 from by simp [lookupId],
          show lookupId (kv' :: t') kv.1 = some kv'.2 from by simp [lookupId, hfst.symm]] at hh
        exact Option.some.inj hh
      have hlt : ∀ k, lookupId t k = lookupId t' k := by
        intro k
        by_cases hkk : k = kv.1
        · subst hkk
          rw [lookupId_eq_none t kv.1 hknotin, lookupId_eq_none t' kv.1 hknotin2]
        · have hh := hl k
          simp only [lookupId] at hh
          rw [if_neg (fun he => hkk he.symm),
            if_neg (fun he => hkk (hfst.trans he).symm)] at hh
          exact hh
      have hkv : kv = kv' := Prod.ext hfst hval
      rw [hkv, ih t' hk.2 hndc.2 hlt]

/-- C7: merging the same incoming batch twice yields the same `unique` map as
merging it once (for any map whose keys are unique, the `ResultSet`
invariant). -/
theorem mergeBatch_idempotent (m : ResultSet) (ps : List Place)
    (hm : (keys m).Nodup) :
    mergeBatch (mergeBatch m ps) ps = mergeBatch m ps := by
  apply resultSet_ext
  · apply keys_mergeBatch_of_subset
    intro p hp
    exact id_mem_keys_mergeBatch hp
  · exact nodup_keys_mergeBatch ps (nodup_keys_mergeBatch ps hm)
  · intro k
    rw [lookupId_mergeBatch, lookupId_mergeBatch]
    cases h : (ps.filter (fun p => decide (p.id = k))).getLast? <;> simp [h]

theorem mergeBatch_idempotent_witness :
    (keys ([] : ResultSet)).Nodup ∧
      mergeBatch (mergeBatch [] [placeA4, placeA5]) [placeA4, placeA5]
        = mergeBatch [] [placeA4, placeA5] :=
  ⟨List.nodup_nil, mergeBatch_idempotent [] [placeA4, placeA5] List.nodup_nil⟩

/-- C5: a configured positive integer test limit `N` makes the orchestrator
search exactly the first `N` points of the generated grid in its order (all
of it when the grid is shorter), and nothing else: the searched list is
`fullGrid.take N`, a prefix of the grid of length `min N (length fullGrid)`,
and the loop of `run` iterates exactly that list. -/
theorem selectGrid_truncates (fullGrid : List LatLng) (N : ℕ) (hN : 0 < N) :
    selectGrid fullGrid (some (JSNum.num (N : ℚ))) = fullGrid.take N ∧
    (fullGrid.take N).length = min N fullGrid.length ∧
    fullGrid.take N ++ fullGrid.drop N = fullGrid ∧
    (fullGrid.length ≤ N → selectGrid fullGrid (some (JSNum.num (N : ℚ))) = fullGrid) := by
  have hsel : selectGrid fullGrid (some (JSNum.num (N : ℚ))) = fullGrid.take N := by
    have h2 : (0 : ℚ) < (N : ℚ) := by exact_mod_cast hN
    simp only [selectGrid, jsTruthy, jsGtZero, jsSliceLen]
    rw [show (decide ((N : ℚ) ≠ 0) && decide (0 < (N : ℚ))) = true from by
      simp [h2, ne_of_gt h2]]
    simp [Int.floor_natCast]
  refine ⟨hsel, List.length_take N fullGrid, List.take_append_drop N fullGrid, ?_⟩
  intro hlen
  rw [hsel]
  exact List.take_of_length_le hlen

theorem selectGrid_truncates_witness :
    0 < 3 ∧
    (selectGrid [⟨0, 0⟩, ⟨0, 1⟩, ⟨0, 2⟩, ⟨1, 0⟩] (some (JSNum.num ((3 : ℕ) : ℚ)))
        = ([⟨0, 0⟩, ⟨0, 1⟩, ⟨0, 2⟩, ⟨1, 0⟩] : List LatLng).take 3 ∧
      (([⟨0, 0⟩, ⟨0, 1⟩, ⟨0, 2⟩, ⟨1, 0⟩] : List LatLng).take 3).length
        = min 3 ([⟨0, 0⟩, ⟨0, 1⟩, ⟨0, 2⟩, ⟨1, 0⟩] : List LatLng).length ∧
      ([⟨0, 0⟩, ⟨0, 1⟩, ⟨0, 2⟩, ⟨1, 0⟩] : List LatLng).take 3
          ++ ([⟨0, 0⟩, ⟨0, 1⟩, ⟨0, 2⟩, ⟨1, 0⟩] : List LatLng).drop 3
        = [⟨0, 0⟩, ⟨0, 1⟩, ⟨0, 2⟩, ⟨1, 0⟩] ∧
      (([⟨0, 0⟩, ⟨0, 1⟩, ⟨0, 2⟩, ⟨1, 0⟩] : List LatLng).length ≤ 3 →
        selectGrid [⟨0, 0⟩, ⟨0, 1⟩, ⟨0, 2⟩, ⟨1, 0⟩] (some (JSNum.num ((3 : ℕ) : ℚ)))
          = [⟨0, 0⟩, ⟨0, 1⟩, ⟨0, 2⟩, ⟨1, 0⟩])) :=
  ⟨by norm_num, selectGrid_truncates [⟨0, 0⟩, ⟨0, 1⟩, ⟨0, 2⟩, ⟨1, 0⟩] 3 (by norm_num)⟩

/-- C10: a test-limit value that is not a number greater than zero — absent,
`NaN`, zero, or negative — causes no truncation: the orchestrator searches
the full generated grid. -/
theorem selectGrid_no_trunc (fullGrid : List LatLng) (t : Option JSNum)
    (h : t = none ∨ t = some JSNum.nan ∨ ∃ q : ℚ, q ≤ 0 ∧ t = some (JSNum.num q)) :
    selectGrid fullGrid t = fullGrid := by
  rcases h with h | h | ⟨q, hq, h⟩
  · rw [h]
    rfl
  · rw [h]
    rfl
  · rw [h]
    have hc : (decide (q ≠ 0) && decide (0 < q)) = false := by
      simp only [Bool.and_eq_false_iff, decide_eq_false_iff_not, not_lt]
      right
      exact hq
    simp only [selectGrid, jsTruthy, jsGtZero]
    simp [hc]
    intro _ h2
    exact absurd h2 (not_lt.mpr hq)

theorem selectGrid_no_trunc_witness :
    (some (JSNum.num (-2)) = none ∨ some (JSNum.num (-2)) = some JSNum.nan ∨
      ∃ q : ℚ, q ≤ 0 ∧ some (JSNum.num (-2)) = some (JSNum.num q)) ∧
    selectGrid [⟨0, 0⟩, ⟨0, 1⟩] (some (JSNum.num (-2))) = [⟨0, 0⟩, ⟨0, 1⟩] :=
  ⟨Or.inr (Or.inr ⟨-2, by norm_num, rfl⟩),
    selectGrid_no_trunc [⟨0, 0⟩, ⟨0, 1⟩] (some (JSNum.num (-2)))
      (Or.inr (Or.inr ⟨-2, by norm_num, rfl⟩))⟩

/-- C4: the claim fails on the code.  The loop body of `run` has no
try/catch, so one failing point rejects the whole run: with two grid points
where the first returns a record and the second fails, the run over the first
point alone succeeds and collects the record, but the run over both points
is an error — the collected data is discarded and nothing is exported,
instead of treating the failure as zero records and continuing. -/
theorem runModel_aborts_on_point_failure :
    runModel searchEx [pointEx1] none = Except.ok [("A", placeA4)] ∧
    runModel searchEx [pointEx1, pointEx2] none = Except.error "network error" := by
  constructor
  · rfl
  · rfl

/-- C8: with a missing (or empty) credential, or with no place-name argument
left after option parsing, the process exits non-zero before the pipeline
runs (the pipeline outcome is never consulted) and writes no output file. -/
theorem program_fatal_startup (apiKey : Option String) (rawArgs : List String)
    (runOutcome : Except String (String × String))
    (h : apiKey.getD "" = "" ∨ parseCity rawArgs = "") :
    (program apiKey rawArgs runOutcome).exitCode = 1 ∧
    (program apiKey rawArgs runOutcome).fileWritten = none ∧
    (∀ runOutcome2, program apiKey rawArgs runOutcome = program apiKey rawArgs runOutcome2) := by
  unfold program startup
  rcases h with h | h
  · rw [if_pos h]
    exact ⟨rfl, rfl, fun _ => rfl⟩
  · by_cases hkey : apiKey.getD "" = ""
    · rw [if_pos hkey]
      exact ⟨rfl, rfl, fun _ => rfl⟩
    · rw [if_neg hkey, if_pos h]
      exact ⟨rfl, rfl, fun _ => rfl⟩

theorem program_fatal_startup_witness :
    ((none : Option String).getD "" = "" ∨ parseCity ["Mumbai"] = "") ∧
    ((program none ["Mumbai"] (Except.ok ("f.csv", "data"))).exitCode = 1 ∧
      (program none ["Mumbai"] (Except.ok ("f.csv", "data"))).fileWritten = none ∧
      (∀ runOutcome2, program none ["Mumbai"] (Except.ok ("f.csv", "data"))
        = program none ["Mumbai"] runOutcome2)) :=
  ⟨Or.inl rfl, program_fatal_startup none ["Mumbai"] (Except.ok ("f.csv", "data")) (Or.inl rfl)⟩

/-- C9: a parsed search response without a `places` field yields the empty
record list (`json.places ?? []`), and merging an empty list of records
leaves the `unique` map unchanged, so such a response contributes nothing. -/
theorem extractPlaces_missing_field (json : PlacesSearchResponse)
    (h : json.places = none) :
    extractPlaces json = [] ∧ ∀ m : ResultSet, mergeBatch m (extractPlaces json) = m := by
  have he : extractPlaces json = [] := by
    unfold extractPlaces
    rw [h]
    rfl
  refine ⟨he, ?_⟩
  intro m
  rw [he]
  rfl

theorem extractPlaces_missing_field_witness :
    (PlacesSearchResponse.mk none).places = none ∧
    (extractPlaces (PlacesSearchResponse.mk none) = [] ∧
      ∀ m : ResultSet, mergeBatch m (extractPlaces (PlacesSearchResponse.mk none)) = m) :=
  ⟨rfl, extractPlaces_missing_field (PlacesSearchResponse.mk none) rfl⟩

theorem escChars_eq_flatMap (l : List Char) :
    escChars l = l.flatMap (fun c => if c = '"' then ['"', '"'] else [c]) := by
  induction l with
  | nil => rfl
  | cons c cs ih =>
    simp only [escChars, List.flatMap_cons]
    by_cases hc : c = '"'
    · rw [if_pos hc, if_pos hc, ih]
      rfl
    · rw [if_neg hc, if_neg hc, ih]
      rfl

/-- C6: the CSV export emits the header row of exactly the eight claimed
columns in order, then one row per record; a row is the eight escaped fields
in source order (name from `displayName.text`, coordinates from `location`);
every field is a double-quoted string with embedded double quotes doubled
(the source's regex replace equals the spec's character-wise doubling), and
an absent field renders as the empty quoted string. -/
theorem toCsv_spec (render : ℚ → String) (ps : List Place) :
    toCsv render ps
      = String.intercalate ("\n")
          (String.intercalate (",") csvHeader :: ps.map (csvRow render)) ∧
    csvHeader = ["id", "name", "rating", "userRatingCount", "websiteUri",
      "formattedAddress", "latitude", "longitude"] ∧
    (ps.map (csvRow render)).length = ps.length ∧
    (∀ s, escapeVal render (CsvVal.str s) = specQuotedField s) ∧
    escapeVal render CsvVal.undef = "\"\"" ∧
    escapeVal render (optStr none) = "\"\"" ∧
    escapeVal render (optNum none) = "\"\"" ∧
    escapeVal render (optStr (some "He said \"hi\"")) = "\"He said \"\"hi\"\"\"" ∧
    (∀ p, csvRow render p = String.intercalate (",")
      [escapeVal render (CsvVal.str p.id),
       escapeVal render (optStr (p.displayName.map DisplayName.text)),
       escapeVal render (optNum p.rating),
       escapeVal render (optNum (p.userRatingCount.map (fun n => (n : ℚ)))),
       escapeVal render (optStr p.websiteUri),
       escapeVal render (optStr p.formattedAddress),
       escapeVal render (optNum (p.location.map Location.latitude)),
       escapeVal render (optNum (p.location.map Location.longitude))]) := by
  refine ⟨rfl, rfl, by simp, ?_, rfl, rfl, rfl, rfl, fun p => rfl⟩
  intro s
  unfold escapeVal specQuotedField csvValStr
  rw [escChars_eq_flatMap]

end GeoGrid
